import Mathlib

set_option maxHeartbeats 2000000

attribute [local semireducible] Rat.mul Rat.inv Rat.add Rat.sub

/-!
Shallow embedding of `spikingFT/models/snn_numpy.py` (classes
`SpikingNeuralLayer` and `SNNNumpy`) over exact rationals.

Conventions of the embedding:
* numpy float arrays become functions `Fin n → Fin 2 → ℚ` (n neurons, the
  two columns are the real / imaginary channels produced by
  `np.hstack((z_real, z_imag))`);
* arithmetic is exact (`ℚ`); float rounding of the source is not modelled;
* the voltage trace `self.voltage` is written every tick and never read by
  the simulation, so only its first-dimension size and the bounds check of
  each write `self.voltage[int(self.current_time)] = ...` are modelled
  (an out-of-range index is an `IndexError`, aborting the run);
* each `while` loop is run with an explicit fuel that provably exceeds the
  loop's trip count whenever `time_step > 0`; exhausted fuel is reported as
  a `fuelOut` crash and marks where the source would loop forever;
* uncaught Python exceptions become `Except.error` values carrying the
  state at the moment of the raise.
-/

/-- State of `SpikingNeuralLayer` (`snn_numpy.py`, `__init__`): neuron
properties `bias`, `v_threshold`, the simulation `time_step`, the weight
pair `self.weights = (real_weights, imag_weights)`, and the per-neuron
variables `v_membrane`, `spikes`, `refactory` (sic) of shape (n, 2). -/
structure Layer (n : ℕ) where
  bias : ℚ
  v_threshold : ℚ
  time_step : ℚ
  wreal : Fin n → Fin n → ℚ
  wimag : Fin n → Fin n → ℚ
  v_membrane : Fin n → Fin 2 → ℚ
  spikes : Fin n → Fin 2 → Bool
  refactory : Fin n → Fin 2 → ℚ

/-- `SpikingNeuralLayer.update_input_currents`: `z_real = Wreal · mask`,
`z_imag = Wimag · mask`, hstacked into columns 0/1, then `z += bias` and
`z *= time_step`. -/
def Layer.update_input_currents {n : ℕ} (L : Layer n) (mask : Fin n → Bool) :
    Fin n → Fin 2 → ℚ :=
  fun i c =>
    ((∑ j, (if c = 0 then L.wreal i j else L.wimag i j) * (if mask j then 1 else 0))
        + L.bias) * L.time_step

/-- `SpikingNeuralLayer.update_membrane_potential`:
`v_membrane += z` then `v_membrane *= (1 - refactory)`. -/
def Layer.update_membrane_potential {n : ℕ} (L : Layer n) (z : Fin n → Fin 2 → ℚ) :
    Layer n :=
  { L with v_membrane := fun i c => (L.v_membrane i c + z i c) * (1 - L.refactory i c) }

/-- `SpikingNeuralLayer.generate_spikes`: `spikes = (v_membrane > v_threshold)`
(strict comparison), then `refactory += spikes` (booleans added as 0/1). -/
def Layer.generate_spikes {n : ℕ} (L : Layer n) : Layer n :=
  let sp : Fin n → Fin 2 → Bool := fun i c => decide (L.v_threshold < L.v_membrane i c)
  { L with
    spikes := sp
    refactory := fun i c => L.refactory i c + (if sp i c then 1 else 0) }

/-- `SpikingNeuralLayer.update_state`: currents, membrane update, spike
generation; the returned `out_spikes` is the `spikes` field of the result. -/
def Layer.update_state {n : ℕ} (L : Layer n) (mask : Fin n → Bool) : Layer n :=
  (L.update_membrane_potential (L.update_input_currents mask)).generate_spikes

/-- State of `SNNNumpy` used by `simulate`: the clock fields, the layer
`l1`, the output accumulator `self.spikes` (shape (n, 2)), and the voltage
trace reduced to its first-dimension size (allocated in `__init__` as
`np.zeros((int(2*self.sim_time), n, 2))`).  `ticks` is a ghost counter of
executed loop iterations, added for stating tick-count properties; it has
no counterpart in the source and influences nothing. -/
structure SimState (n : ℕ) where
  current_time : ℚ
  sim_time : ℚ
  time_step : ℚ
  v_threshold : ℚ
  l1 : Layer n
  spikes : Fin n → Fin 2 → ℚ
  voltage_size : ℕ
  ticks : ℕ

/-- Kinds of uncaught Python exceptions `simulate` can raise: numpy
`IndexError` on the voltage-trace write, Python `UnboundLocalError` on
`np.zeros_like(causal_neurons)` when the charging loop ran zero times, and
the artificial `fuelOut` marking nontermination of the source loop. -/
inductive CrashKind where
  | indexError
  | unboundLocal
  | fuelOut
deriving DecidableEq

/-- An aborted run: the exception kind and the state at the raise. -/
structure Crash (n : ℕ) where
  kind : CrashKind
  state : SimState n

/-- Python `int()` on a rational: truncation toward zero. -/
def pyInt (q : ℚ) : ℤ := if q < 0 then ⌈q⌉ else ⌊q⌋

/-- Whether `voltage[int(t)] = ...` is in bounds for a first dimension of
`size` (numpy accepts indices in `[-size, size)`). -/
def voltageIndexOk (size : ℕ) (t : ℚ) : Bool :=
  decide (-(size : ℤ) ≤ pyInt t) && decide (pyInt t < (size : ℤ))

/-- Charging-stage causal mask:
`causal_neurons = (spike_trains < self.current_time)` (strict). -/
def causalMask {n : ℕ} (inputs : Fin n → ℚ) (t : ℚ) : Fin n → Bool :=
  fun j => decide (inputs j < t)

/-- One iteration of the charging ("Silent") loop of `SNNNumpy.simulate`:
mask from input spike times, `out_l1 = l1.update_state(mask) * current_time`,
voltage-trace write (bounds-checked), `self.spikes += out_l1`,
`current_time += time_step`.  The trace write precedes the accumulation in
the source, so an `IndexError` leaves the accumulator not yet updated. -/
def silentTick {n : ℕ} (inputs : Fin n → ℚ) (s : SimState n) :
    Except (Crash n) (SimState n) :=
  let mask := causalMask inputs s.current_time
  let L1 := s.l1.update_state mask
  let s1 : SimState n := { s with l1 := L1, ticks := s.ticks + 1 }
  if voltageIndexOk s.voltage_size s.current_time then
    .ok { s1 with
          spikes := fun i c => s1.spikes i c + (if L1.spikes i c then s.current_time else 0)
          current_time := s.current_time + s.time_step }
  else .error ⟨.indexError, s1⟩

/-- One iteration of the "Spiking" loop of `SNNNumpy.simulate`: all-zero
mask, `relative_time = current_time - sim_time`,
`self.spikes += out_l1 * relative_time`, then the voltage-trace write
(after the accumulation, unlike the charging loop), then
`current_time += time_step`. -/
def spikingTick {n : ℕ} (s : SimState n) : Except (Crash n) (SimState n) :=
  let mask : Fin n → Bool := fun _ => false
  let L1 := s.l1.update_state mask
  let rel := s.current_time - s.sim_time
  let s1 : SimState n :=
    { s with l1 := L1, ticks := s.ticks + 1
             spikes := fun i c => s.spikes i c + (if L1.spikes i c then rel else 0) }
  if voltageIndexOk s.voltage_size s.current_time then
    .ok { s1 with current_time := s.current_time + s.time_step }
  else .error ⟨.indexError, s1⟩

/-- Fuel-bounded `while` loop: run `tick` while `cond` holds, propagating
crashes.  The fuels supplied below strictly exceed the trip count whenever
`time_step > 0`, so `fuelOut` is only reached where the source diverges. -/
def loopW {n : ℕ} (cond : SimState n → Bool)
    (tick : SimState n → Except (Crash n) (SimState n)) :
    ℕ → SimState n → Except (Crash n) (SimState n)
  | 0, s => .error ⟨.fuelOut, s⟩
  | fuel + 1, s =>
    if cond s then
      match tick s with
      | .error e => .error e
      | .ok s' => loopW cond tick fuel s'
    else .ok s

/-- Guard of the charging loop: `while current_time <= sim_time`. -/
def condSilent {n : ℕ} (s : SimState n) : Bool :=
  decide (s.current_time ≤ s.sim_time)

/-- Guard of the spiking loop: `while current_time <= 2*sim_time`. -/
def condSpiking {n : ℕ} (s : SimState n) : Bool :=
  decide (s.current_time ≤ 2 * s.sim_time)

/-- Fuel bound for a loop from time `t` up to `bound` in steps of `ts`:
one more unit than the trip count `⌊(bound - t)/ts⌋ + 1` (for `ts > 0`). -/
def loopFuel (t bound ts : ℚ) : ℕ := (⌊(bound - t) / ts⌋).toNat + 2

/-- Between the two loops: `self.l1.bias = 2 * self.v_threshold`. -/
def setChargeBias {n : ℕ} (s : SimState n) : SimState n :=
  { s with l1 := { s.l1 with bias := 2 * s.v_threshold } }

/-- Both stage loops of `SNNNumpy.simulate`, up to (excluding) the final
sentinel/decode lines.  After the charging loop the source runs
`causal_neurons = np.zeros_like(causal_neurons)`; the local
`causal_neurons` is only bound if the charging loop body ran at least
once, i.e. iff initially `current_time <= sim_time` — otherwise Python
raises `UnboundLocalError` there (after the bias assignment). -/
def simulateLoops {n : ℕ} (inputs : Fin n → ℚ) (s : SimState n) :
    Except (Crash n) (SimState n) :=
  match loopW condSilent (silentTick inputs)
      (loopFuel s.current_time s.sim_time s.time_step) s with
  | .error e => .error e
  | .ok s1 =>
    let s2 := setChargeBias s1
    if s.current_time ≤ s.sim_time then
      loopW condSpiking spikingTick
        (loopFuel s2.current_time (2 * s2.sim_time) s2.time_step) s2
    else .error ⟨.unboundLocal, s2⟩

/-- Sentinel substitution:
`self.spikes = np.where(self.spikes == 0, 1.5*self.sim_time, self.spikes)`. -/
def applySentinel {n : ℕ} (s : SimState n) : SimState n :=
  { s with spikes := fun i c =>
      if s.spikes i c = 0 then 3 / 2 * s.sim_time else s.spikes i c }

/-- Decode: `self.spikes = self.sim_time - self.spikes` followed by
`self.spikes -= 0.5 * self.sim_time`. -/
def decodeStep {n : ℕ} (s : SimState n) : SimState n :=
  { s with spikes := fun i c => s.sim_time - s.spikes i c - 1 / 2 * s.sim_time }

/-- The three finalization lines of `SNNNumpy.simulate`. -/
def finalize {n : ℕ} (s : SimState n) : SimState n :=
  decodeStep (applySentinel s)

/-- `SNNNumpy.simulate(spike_trains)`: two stage loops, then sentinel and
decode; the decoded `self.spikes` is the returned output. -/
def simulate {n : ℕ} (inputs : Fin n → ℚ) (s : SimState n) :
    Except (Crash n) (SimState n) :=
  match simulateLoops inputs s with
  | .error e => .error e
  | .ok s3 => .ok (finalize s3)

/-- A just-constructed simulator state with scalar fields `st`, `ts`, `th`
and trace capacity `vsize`, exactly as `SNNNumpy.__init__` and
`init_compartments` lay the state out (`current_time = 0`, zero membrane,
zero accumulator, zero `refactory`, layer bias defaulted to 0): the source
constructor always instantiates the scalars with the constants
`sim_time = 5`, `time_step = 0.001`, `v_threshold = 0.1`, `vsize = 10`;
they are parameters here so that behaviour at other configured values is
statable. -/
def mkFresh (n : ℕ) (st ts th : ℚ) (w1 w2 : Fin n → Fin n → ℚ) (vsize : ℕ) :
    SimState n :=
  { current_time := 0
    sim_time := st
    time_step := ts
    v_threshold := th
    l1 := { bias := 0, v_threshold := th, time_step := ts, wreal := w1, wimag := w2
            v_membrane := fun _ _ => 0, spikes := fun _ _ => false
            refactory := fun _ _ => 0 }
    spikes := fun _ _ => 0
    voltage_size := vsize
    ticks := 0 }

/-- Caller-supplied construction parameters of the entry point (spec §6:
`config{n_samples, sim_time, time_step, v_threshold, bias}` plus the two
weight matrices; `n_samples` is the type index `n`). -/
structure Config (n : ℕ) where
  sim_time : ℚ
  time_step : ℚ
  v_threshold : ℚ
  bias : ℚ
  real_weights : Fin n → Fin n → ℚ
  imag_weights : Fin n → Fin n → ℚ

/-- The error kind the specification requires construction to raise on a
bad configuration. -/
inductive ConfigurationError where
  | nonPositiveSimTime
  | nonPositiveTimeStep
  | dimensionMismatch
deriving DecidableEq

/-- `SNNNumpy.__init__(**kwargs)`: reads `kwargs.get("sim_time")` and then
immediately overwrites it with the constant 5; hard-codes
`time_step = 0.001` and `v_threshold = 0.1`; allocates the voltage trace
with first dimension `int(2*self.sim_time) = 10`; `init_compartments`
passes these constants to the layer.  The `time_step`, `v_threshold` and
`bias` entries of the configuration are never read.  The base-class
constructor `FourierTransformSNN.__init__` is not in the sources; modelled
from the spec: it stores `n_samples` (the index `n`) and the two weight
matrices, nothing else relevant here. -/
def SNNNumpy_init {n : ℕ} (cfg : Config n) : SimState n :=
  mkFresh n 5 (1 / 1000) (1 / 10) cfg.real_weights cfg.imag_weights 10

/-- Construction outcome as an `Except`: the source constructor contains no
validation and no raise statement, so every configuration (also one with
non-positive `sim_time` or `time_step`) constructs successfully. -/
def SNNNumpy_init_result {n : ℕ} (cfg : Config n) :
    Except ConfigurationError (SimState n) :=
  .ok (SNNNumpy_init cfg)

/-- `SNNNumpy.run(spike_trains)`: takes the real part of the input
(inputs are already rational here), calls `simulate`, and returns
`self.spikes`. -/
def SNNNumpy_run {n : ℕ} (inputs : Fin n → ℚ) (s : SimState n) :
    Except (Crash n) (Fin n → Fin 2 → ℚ) :=
  match simulate inputs s with
  | .ok f => .ok f.spikes
  | .error e => .error e

/-- The state a result carries: the final state of a completed run, or the
state at the raise of an aborted one. -/
def stateOf {n : ℕ} (r : Except (Crash n) (SimState n)) : SimState n :=
  match r with
  | .ok s => s
  | .error c => c.state

/-- The decoded output of a completed run, `none` on a crash. -/
def outOf {n : ℕ} (r : Except (Crash n) (SimState n)) :
    Option (Fin n → Fin 2 → ℚ) :=
  match r with
  | .ok s => some s.spikes
  | .error _ => none

/-- Ghost tick counter of the state a result carries. -/
def resultTicks {n : ℕ} (r : Except (Crash n) (SimState n)) : ℕ :=
  (stateOf r).ticks

/-- Whether a result is the `UnboundLocalError` crash. -/
def isUnboundCrash {n : ℕ} (r : Except (Crash n) (SimState n)) : Bool :=
  match r with
  | .error c => c.kind = CrashKind.unboundLocal
  | .ok _ => false

/-- The crash kind a result carries, `none` for a completed run. -/
def crashKindOf {n : ℕ} (r : Except (Crash n) (SimState n)) : Option CrashKind :=
  match r with
  | .error c => some c.kind
  | .ok _ => none

/-- Weight matrix `[[1]]` of the worked scenario. -/
def wOne : Fin 1 → Fin 1 → ℚ := fun _ _ => 1

/-- Weight matrix `[[0]]` of the worked scenario. -/
def wZero : Fin 1 → Fin 1 → ℚ := fun _ _ => 0

/-- Input spike times `[0.5]` of the worked scenario. -/
def inpHalf : Fin 1 → ℚ := fun _ => 1 / 2

/-- Input spike times `[-1]`: causally active already at the tick with
`current_time = 0`. -/
def inpNeg : Fin 1 → ℚ := fun _ => -1

/-- Worked-scenario state (`sim_time = 2`, `time_step = 1`,
`v_threshold = 0.1`) with the voltage-trace capacity the allocation
formula `int(2*sim_time)` yields for `sim_time = 2`, namely 4. -/
def scenSmall : SimState 1 := mkFresh 1 2 1 (1 / 10) wOne wZero 4

/-- Worked-scenario state with the voltage-trace capacity the constructor
actually allocates (`int(2*5) = 10`, since `self.sim_time` is already
overwritten to 5 at allocation time). -/
def scenBig : SimState 1 := mkFresh 1 2 1 (1 / 10) wOne wZero 10

/-- A configuration exercising `sim_time = 2`, `time_step = 1`,
`v_threshold = 0.5` through the constructor. -/
def cfgScen : Config 1 :=
  { sim_time := 2, time_step := 1, v_threshold := 1 / 2, bias := 0
    real_weights := wOne, imag_weights := wZero }

/-- An invalid configuration: `sim_time = -1 ≤ 0` and `time_step = 0`. -/
def badCfg : Config 1 :=
  { sim_time := -1, time_step := 0, v_threshold := 1 / 10, bias := 0
    real_weights := wOne, imag_weights := wZero }

/-- A completing run: `sim_time = 2`, `time_step = 3/4`,
`v_threshold = 0.1`, trace capacity `int(2*2) = 4`; no tick reaches
voltage index 4, so the run finishes. -/
def scenSmooth : SimState 1 := mkFresh 1 2 (3 / 4) (1 / 10) wOne wZero 4

/-- Degenerate threshold `v_threshold = 0` on an otherwise ordinary
configuration. -/
def scenTh0 : SimState 1 := mkFresh 1 2 (3 / 4) 0 wOne wZero 4

/-- Negative threshold `v_threshold = -1` with zero weights. -/
def scenThNeg : SimState 1 := mkFresh 1 2 (3 / 4) (-1) wZero wZero 4

/-- C1: in the worked scenario (N=1, threshold 0.1, time_step 1,
sim_time 2, Wreal=[[1]], Wimag=[[0]], input spike times [0.5]), with the
trace buffer the constructor actually allocates (capacity 10), the
accumulator immediately before finalization is [1, 1], the sentinel
substitution changes nothing, and the decoded output is [0, 0]; with the
buffer the allocation formula `int(2*sim_time)` gives for the scenario's
own `sim_time` (capacity 4), the final spiking tick's trace write raises
`IndexError` after the accumulator has reached [1, 1], and no output is
produced. -/
theorem c1_worked_scenario :
    ((stateOf (simulateLoops inpHalf scenBig)).spikes 0 0 = 1 ∧
      (stateOf (simulateLoops inpHalf scenBig)).spikes 0 1 = 1) ∧
    ((applySentinel (stateOf (simulateLoops inpHalf scenBig))).spikes 0 0 = 1 ∧
      (applySentinel (stateOf (simulateLoops inpHalf scenBig))).spikes 0 1 = 1) ∧
    ((outOf (simulate inpHalf scenBig)).isSome = true ∧
      (stateOf (simulate inpHalf scenBig)).spikes 0 0 = 0 ∧
      (stateOf (simulate inpHalf scenBig)).spikes 0 1 = 0) ∧
    (crashKindOf (simulate inpHalf scenSmall) = some CrashKind.indexError ∧
      (stateOf (simulate inpHalf scenSmall)).spikes 0 0 = 1 ∧
      (stateOf (simulate inpHalf scenSmall)).spikes 0 1 = 1 ∧
      outOf (simulate inpHalf scenSmall) = none) := by
  decide

/-- C2: the constructor does not honor the caller-supplied scalars: for
every configuration it installs `sim_time = 5`, `time_step = 1/1000` and
`v_threshold = 1/10`, and in particular the configuration asking for
`sim_time = 2`, `time_step = 1`, `v_threshold = 1/2` gets the constants
instead. -/
theorem c2_config_not_honored :
    (∀ (n : ℕ) (cfg : Config n),
      (SNNNumpy_init cfg).sim_time = 5 ∧
      (SNNNumpy_init cfg).time_step = 1 / 1000 ∧
      (SNNNumpy_init cfg).v_threshold = 1 / 10) ∧
    (cfgScen.sim_time = 2 ∧ (SNNNumpy_init cfgScen).sim_time ≠ cfgScen.sim_time) ∧
    (cfgScen.time_step = 1 ∧ (SNNNumpy_init cfgScen).time_step ≠ cfgScen.time_step) ∧
    (cfgScen.v_threshold = 1 / 2 ∧
      (SNNNumpy_init cfgScen).v_threshold ≠ cfgScen.v_threshold) := by
  refine ⟨fun n cfg => ⟨rfl, rfl, rfl⟩, ⟨rfl, ?_⟩, ⟨rfl, ?_⟩, ⟨rfl, ?_⟩⟩ <;> decide

/-- C3 counterexample: a configuration with `sim_time = -1 ≤ 0` and
`time_step = 0 ≤ 0` nevertheless constructs successfully — no
`ConfigurationError` is raised at construction. -/
theorem c3_counterexample :
    badCfg.sim_time ≤ 0 ∧ badCfg.time_step ≤ 0 ∧
    (SNNNumpy_init_result badCfg).isOk = true := by
  refine ⟨by norm_num [badCfg], by norm_num [badCfg], rfl⟩

/-- C3 amended: construction never raises — the constructor contains no
validation at all, for invalid and valid configurations alike. -/
theorem c3_no_validation :
    ∀ (n : ℕ) (cfg : Config n), (SNNNumpy_init_result cfg).isOk = true :=
  fun _ _ => rfl

/-- C8: the simulation is a pure function of the construction parameters
and the input spike times — two independent runs from freshly constructed
simulators with identical inputs produce identical results (the source
contains no randomness; its only side effects, logging, do not feed back
into the state). -/
theorem c8_determinism :
    ∀ (n : ℕ) (cfg : Config n) (inputs : Fin n → ℚ),
      SNNNumpy_run inputs (SNNNumpy_init cfg) = SNNNumpy_run inputs (SNNNumpy_init cfg) ∧
      simulate inputs (SNNNumpy_init cfg) = simulate inputs (SNNNumpy_init cfg) :=
  fun _ _ _ => ⟨rfl, rfl⟩

/-- C10: with input spike time -1 (causal mask already active at the first
charging tick, `current_time = 0`), the real channel fires on that first
tick, its contribution `spike * current_time` is 0, so after both stages
its accumulator is exactly 0 — indistinguishable from a channel that never
fired; finalization therefore applies the sentinel `1.5 * sim_time = 3`
and decodes the channel to `-sim_time = -2`, the minimum, instead of a
near-maximal coefficient. -/
theorem c10_first_tick_spike_sentinel :
    scenSmooth.current_time = 0 ∧
    (stateOf (silentTick inpNeg scenSmooth)).l1.spikes 0 0 = true ∧
    (stateOf (silentTick inpNeg scenSmooth)).spikes 0 0 = 0 ∧
    (simulateLoops inpNeg scenSmooth).isOk = true ∧
    (stateOf (simulateLoops inpNeg scenSmooth)).spikes 0 0 = 0 ∧
    (applySentinel (stateOf (simulateLoops inpNeg scenSmooth))).spikes 0 0 =
      3 / 2 * scenSmooth.sim_time ∧
    (stateOf (simulate inpNeg scenSmooth)).spikes 0 0 = -scenSmooth.sim_time := by
  decide

/-- C4 counterexample: in the worked scenario (sim_time 2, time_step 1,
trace capacity `int(2*sim_time) = 4`) the code enters 5 loop iterations —
`⌊2*sim_time/time_step⌋ + 1`, one more than `⌈2*sim_time/time_step⌉ = 4` —
and the 5th iteration aborts with `IndexError` instead of terminating at
the first tick exceeding `2*sim_time`. -/
theorem c4_counterexample :
    resultTicks (simulate inpHalf scenSmall) = 5 ∧
    ⌈2 * scenSmall.sim_time / scenSmall.time_step⌉ = 4 ∧
    crashKindOf (simulate inpHalf scenSmall) = some CrashKind.indexError ∧
    (5 : ℕ) ≠ 4 := by
  decide

/-- C7 counterexample: with `v_threshold = 0` (a configuration the claim
covers via threshold ≤ 0) and nonnegative input spike times, no input is
causal at the first tick, the membrane stays exactly 0, and the strict
comparison `0 > 0` fails — neither channel of the neuron fires on the
first tick. -/
theorem c7_counterexample :
    scenTh0.v_threshold ≤ 0 ∧
    (stateOf (silentTick inpHalf scenTh0)).l1.spikes 0 0 = false ∧
    (stateOf (silentTick inpHalf scenTh0)).l1.spikes 0 1 = false := by
  decide

/-- C5 counterexample: with `v_threshold = -1`, the neuron fires at the
first tick and sets `refactory = 1`; at the very next tick its membrane is
forced to 0, yet `0 > -1` holds, so it fires again (and `refactory`
climbs to 2) — a refractory channel does produce further spikes. -/
theorem c5_counterexample :
    scenThNeg.v_threshold ≤ 0 ∧
    (stateOf (silentTick inpHalf scenThNeg)).l1.spikes 0 0 = true ∧
    (stateOf (silentTick inpHalf scenThNeg)).l1.refactory 0 0 = 1 ∧
    (stateOf (silentTick inpHalf (stateOf (silentTick inpHalf scenThNeg)))).l1.spikes 0 0
      = true ∧
    (stateOf (silentTick inpHalf (stateOf (silentTick inpHalf scenThNeg)))).l1.refactory 0 0
      = 2 := by
  decide

/-- C9 counterexample: a first invocation of `simulate` on a fresh
simulator completes, but a second invocation on the same (now mutated)
object does not return the same output: `current_time` is already past
`sim_time`, the charging loop body never runs, and the source raises
`UnboundLocalError` at `np.zeros_like(causal_neurons)`. -/
theorem c9_counterexample :
    (outOf (simulate inpHalf scenSmooth)).isSome = true ∧
    outOf (simulate inpHalf (stateOf (simulate inpHalf scenSmooth))) = none ∧
    isUnboundCrash (simulate inpHalf (stateOf (simulate inpHalf scenSmooth))) = true := by
  decide

/-- Trip count of a `while current_time <= bound` loop stepping by `ts`
from time `t` (meaningful for `ts > 0`). -/
def trips (t bound ts : ℚ) : ℕ :=
  if t ≤ bound then (⌊(bound - t) / ts⌋).toNat + 1 else 0

/-- Scalar bookkeeping of a successful charging tick: the clock advances by
exactly one `time_step`, the ghost counter by one, and the configuration
scalars are untouched. -/
lemma silentTick_ok {n : ℕ} {inputs : Fin n → ℚ} {s s' : SimState n}
    (h : silentTick inputs s = .ok s') :
    s'.current_time = s.current_time + s.time_step ∧ s'.ticks = s.ticks + 1 ∧
      s'.sim_time = s.sim_time ∧ s'.time_step = s.time_step ∧
      s'.v_threshold = s.v_threshold ∧ s'.voltage_size = s.voltage_size ∧
      s'.l1 = s.l1.update_state (causalMask inputs s.current_time) := by
  unfold silentTick at h
  split at h
  · injection h with h
    subst h
    exact ⟨rfl, rfl, rfl, rfl, rfl, rfl, rfl⟩
  · exact Except.noConfusion h

/-- Scalar bookkeeping of a successful spiking tick. -/
lemma spikingTick_ok {n : ℕ} {s s' : SimState n} (h : spikingTick s = .ok s') :
    s'.current_time = s.current_time + s.time_step ∧ s'.ticks = s.ticks + 1 ∧
      s'.sim_time = s.sim_time ∧ s'.time_step = s.time_step ∧
      s'.v_threshold = s.v_threshold ∧ s'.voltage_size = s.voltage_size ∧
      s'.l1 = s.l1.update_state (fun _ => false) := by
  unfold spikingTick at h
  split at h
  · injection h with h
    subst h
    exact ⟨rfl, rfl, rfl, rfl, rfl, rfl, rfl⟩
  · exact Except.noConfusion h

/-- A `while` loop only returns normally once its guard has failed. -/
lemma loopW_exit {n : ℕ} {cond : SimState n → Bool}
    {tick : SimState n → Except (Crash n) (SimState n)} :
    ∀ {fuel : ℕ} {s s' : SimState n}, loopW cond tick fuel s = .ok s' →
      cond s' = false := by
  intro fuel
  induction fuel with
  | zero => intro s s' h; exact Except.noConfusion h
  | succ f ih =>
    intro s s' h
    unfold loopW at h
    cases hcs : cond s with
    | false =>
      rw [hcs] at h
      simp only [Bool.false_eq_true, if_false] at h
      injection h with h
      subst h
      exact hcs
    | true =>
      rw [hcs] at h
      simp only [if_true] at h
      cases htk : tick s with
      | error e => rw [htk] at h; exact Except.noConfusion h
      | ok s1 => rw [htk] at h; exact ih h

/-- Invariant preservation through a `while` loop: any property preserved
by the tick (under the guard) carries from entry to normal exit. -/
lemma loopW_inv {n : ℕ} {cond : SimState n → Bool}
    {tick : SimState n → Except (Crash n) (SimState n)} (P : SimState n → Prop)
    (hpres : ∀ s s', P s → cond s = true → tick s = .ok s' → P s') :
    ∀ {fuel : ℕ} {s s' : SimState n}, P s → loopW cond tick fuel s = .ok s' →
      P s' := by
  intro fuel
  induction fuel with
  | zero => intro s s' _ h; exact Except.noConfusion h
  | succ f ih =>
    intro s s' hP h
    unfold loopW at h
    cases hcs : cond s with
    | false =>
      rw [hcs] at h
      simp only [Bool.false_eq_true, if_false] at h
      injection h with h
      subst h
      exact hP
    | true =>
      rw [hcs] at h
      simp only [if_true] at h
      cases htk : tick s with
      | error e => rw [htk] at h; exact Except.noConfusion h
      | ok s1 => rw [htk] at h; exact ih (hpres s s1 hP hcs htk) h

/-- One step of a timed loop consumes exactly one trip:
`trips t = trips (t + ts) + 1` while `t ≤ bound`. -/
lemma trips_succ {t bound ts : ℚ} (hts : 0 < ts) (h : t ≤ bound) :
    trips t bound ts = trips (t + ts) bound ts + 1 := by
  unfold trips
  rw [if_pos h]
  by_cases h2 : t + ts ≤ bound
  · rw [if_pos h2]
    have h3 : bound - (t + ts) = (bound - t) - ts := by ring
    have h4 : (bound - (t + ts)) / ts = (bound - t) / ts - 1 := by
      rw [h3, sub_div, div_self hts.ne']
    have h5 : (1 : ℚ) ≤ (bound - t) / ts := (one_le_div hts).mpr (by linarith)
    have h6 : (1 : ℤ) ≤ ⌊(bound - t) / ts⌋ := by
      exact_mod_cast Int.le_floor.mpr (by exact_mod_cast h5)
    rw [h4, Int.floor_sub_one]
    omega
  · rw [if_neg h2]
    have h4 : (0 : ℚ) ≤ (bound - t) / ts := div_nonneg (by linarith) hts.le
    have h5 : (bound - t) / ts < 1 := (div_lt_one hts).mpr (by linarith)
    have h6 : ⌊(bound - t) / ts⌋ = 0 := Int.floor_eq_zero_iff.mpr ⟨h4, h5⟩
    omega

/-- Counting lemma for a timed `while` loop whose guard is
`current_time ≤ B` and whose tick advances the clock by one `time_step`:
a normal exit happens after exactly `trips` iterations, at time
`t + trips * ts`. -/
lemma loopW_count {n : ℕ} (cond : SimState n → Bool)
    (tick : SimState n → Except (Crash n) (SimState n)) (B : SimState n → ℚ)
    (hcond : ∀ s, cond s = decide (s.current_time ≤ B s))
    (htick : ∀ s s' : SimState n, tick s = .ok s' →
      s'.current_time = s.current_time + s.time_step ∧ s'.ticks = s.ticks + 1 ∧
        s'.time_step = s.time_step ∧ B s' = B s) :
    ∀ {fuel : ℕ} {s s' : SimState n}, 0 < s.time_step →
      trips s.current_time (B s) s.time_step < fuel →
      loopW cond tick fuel s = .ok s' →
      s'.ticks = s.ticks + trips s.current_time (B s) s.time_step ∧
        s'.current_time = s.current_time +
          (trips s.current_time (B s) s.time_step : ℚ) * s.time_step ∧
        s'.time_step = s.time_step ∧ B s' = B s := by
  intro fuel
  induction fuel with
  | zero => intro s s' _ hf h; exact Except.noConfusion h
  | succ f ih =>
    intro s s' hts hf h
    unfold loopW at h
    cases hcs : cond s with
    | false =>
      rw [hcs] at h
      simp only [Bool.false_eq_true, if_false] at h
      injection h with h
      subst h
      have hb : ¬ (s.current_time ≤ B s) := by
        have := hcond s
        rw [hcs] at this
        exact of_decide_eq_false this.symm
      have h0 : trips s.current_time (B s) s.time_step = 0 := by
        unfold trips
        rw [if_neg hb]
      rw [h0]
      refine ⟨by omega, by push_cast; ring, rfl, rfl⟩
    | true =>
      have hb : s.current_time ≤ B s := by
        have := hcond s
        rw [hcs] at this
        exact of_decide_eq_true this.symm
      rw [hcs] at h
      simp only [if_true] at h
      cases htk : tick s with
      | error e => rw [htk] at h; exact Except.noConfusion h
      | ok s1 =>
        rw [htk] at h
        obtain ⟨ht1, hk1, hts1, hB1⟩ := htick s s1 htk
        have hstep : trips s.current_time (B s) s.time_step
            = trips s1.current_time (B s1) s1.time_step + 1 := by
          rw [ht1, hts1, hB1]
          exact trips_succ hts hb
        have hf1 : trips s1.current_time (B s1) s1.time_step < f := by omega
        have hts' : 0 < s1.time_step := by rw [hts1]; exact hts
        obtain ⟨ha, hbq, hc, hd⟩ := ih hts' hf1 h
        refine ⟨by omega, ?_, by rw [hc, hts1], by rw [hd, hB1]⟩
        have hstepQ : ((trips s.current_time (B s) s.time_step : ℕ) : ℚ)
            = (trips s1.current_time (B s1) s1.time_step : ℚ) + 1 := by
          rw [hstep]
          push_cast
          ring
        rw [hbq, hstepQ, ht1, hts1]
        ring

/-- The fuel supplied to each loop strictly exceeds its trip count. -/
lemma trips_lt_loopFuel (t bound ts : ℚ) : trips t bound ts < loopFuel t bound ts := by
  unfold trips loopFuel
  split
  · omega
  · omega

/-- Total trip count of the two stage loops from a fresh clock: the
charging loop runs `⌊sim_time/time_step⌋ + 1` times, and together with the
spiking loop the total is `⌊2*sim_time/time_step⌋ + 1`. -/
lemma trips_total {st ts t1 : ℚ} (hts : 0 < ts) (hst : 0 ≤ st)
    (ht1 : t1 = (trips 0 st ts : ℚ) * ts) (hgt : st < t1) :
    trips 0 st ts + trips t1 (2 * st) ts = (⌊2 * st / ts⌋ + 1).toNat := by
  have hK1 : (0 : ℤ) ≤ ⌊st / ts⌋ := Int.floor_nonneg.mpr (div_nonneg hst hts.le)
  have htr1 : trips 0 st ts = (⌊st / ts⌋).toNat + 1 := by
    unfold trips
    rw [if_pos hst, sub_zero]
  have htr1Q : ((trips 0 st ts : ℕ) : ℚ) = (⌊st / ts⌋ : ℚ) + 1 := by
    rw [htr1, Nat.cast_add, Nat.cast_one]
    congr 1
    rw [← Int.cast_natCast (R := ℚ), Int.toNat_of_nonneg hK1]
  by_cases hA : t1 ≤ 2 * st
  · have hdiv : (2 * st - t1) / ts = 2 * st / ts - ((⌊st / ts⌋ + 1 : ℤ) : ℚ) := by
      rw [ht1, htr1Q]
      push_cast
      field_simp
      ring
    have hfloor : ⌊(2 * st - t1) / ts⌋ = ⌊2 * st / ts⌋ - ⌊st / ts⌋ - 1 := by
      rw [hdiv, Int.floor_sub_int]
      ring
    have hnn : (0 : ℤ) ≤ ⌊2 * st / ts⌋ - ⌊st / ts⌋ - 1 := by
      rw [← hfloor]
      exact Int.floor_nonneg.mpr (div_nonneg (by linarith) hts.le)
    have htr2 : trips t1 (2 * st) ts = (⌊2 * st / ts⌋ - ⌊st / ts⌋ - 1).toNat + 1 := by
      unfold trips
      rw [if_pos hA, hfloor]
    rw [htr1, htr2]
    omega
  · have htr2 : trips t1 (2 * st) ts = 0 := by
      unfold trips
      rw [if_neg hA]
    have hlt : 2 * st / ts < (⌊st / ts⌋ : ℚ) + 1 := by
      rw [div_lt_iff hts]
      have ht1' : t1 = ((⌊st / ts⌋ : ℚ) + 1) * ts := by rw [ht1, htr1Q]
      have h2 : 2 * st < t1 := not_le.mp hA
      linarith [ht1' ▸ h2]
    have hK2lt : ⌊2 * st / ts⌋ < ⌊st / ts⌋ + 1 := by
      apply Int.floor_lt.mpr
      push_cast
      exact hlt
    have hK2ge : ⌊st / ts⌋ ≤ ⌊2 * st / ts⌋ := by
      apply Int.floor_mono
      exact (div_le_div_right hts).mpr (by linarith)
    rw [htr1, htr2]
    omega

/-- C4 amended: for every completed run from a fresh state (positive
`time_step`, nonnegative `sim_time`), the total number of executed loop
iterations is `⌊2*sim_time/time_step⌋ + 1` — because both loop guards are
inclusive (`<=`) and the clock starts at 0 — and not
`⌈2*sim_time/time_step⌉` as claimed, from which it differs by one whenever
`time_step` divides `2*sim_time`. -/
theorem c4_tick_count {n : ℕ} (st ts th : ℚ) (w1 w2 : Fin n → Fin n → ℚ)
    (vsize : ℕ) (inputs : Fin n → ℚ) (hts : 0 < ts) (hst : 0 ≤ st)
    (hok : (simulate inputs (mkFresh n st ts th w1 w2 vsize)).isOk = true) :
    resultTicks (simulate inputs (mkFresh n st ts th w1 w2 vsize)) =
      (⌊2 * st / ts⌋ + 1).toNat := by
  set s0 := mkFresh n st ts th w1 w2 vsize with hs0
  cases hsl : simulateLoops inputs s0 with
  | error e =>
    unfold simulate at hok
    rw [hsl] at hok
    exact Bool.noConfusion hok
  | ok s3 =>
    have hsim : simulate inputs s0 = .ok (finalize s3) := by
      unfold simulate
      rw [hsl]
    rw [hsim]
    show (finalize s3).ticks = (⌊2 * st / ts⌋ + 1).toNat
    unfold simulateLoops at hsl
    cases hs1 : loopW condSilent (silentTick inputs)
        (loopFuel s0.current_time s0.sim_time s0.time_step) s0 with
    | error e => rw [hs1] at hsl; exact Except.noConfusion hsl
    | ok s1 =>
      rw [hs1] at hsl
      have hct : s0.current_time = 0 := rfl
      have hst0 : s0.sim_time = st := rfl
      have hts0 : s0.time_step = ts := rfl
      have hbranch : s0.current_time ≤ s0.sim_time := by
        rw [hct, hst0]
        exact hst
      have hsl2 : (if s0.current_time ≤ s0.sim_time then
            loopW condSpiking spikingTick
              (loopFuel (setChargeBias s1).current_time (2 * (setChargeBias s1).sim_time)
                (setChargeBias s1).time_step) (setChargeBias s1)
          else .error ⟨.unboundLocal, setChargeBias s1⟩) = .ok s3 := hsl
      rw [if_pos hbranch] at hsl2
      have hcount1 := loopW_count condSilent (silentTick inputs)
        (fun s => s.sim_time) (fun s => rfl)
        (fun s s' h =>
          have x := silentTick_ok h
          ⟨x.1, x.2.1, x.2.2.2.1, x.2.2.1⟩)
        (show 0 < s0.time_step by rw [hts0]; exact hts)
        (trips_lt_loopFuel _ _ _) hs1
      obtain ⟨hk1, ht1, hts1, hsim1⟩ := hcount1
      dsimp only at hk1 ht1 hsim1
      have hgt1 : s1.sim_time < s1.current_time := by
        have hx := loopW_exit hs1
        unfold condSilent at hx
        exact not_le.mp (of_decide_eq_false hx)
      have hcount2 := loopW_count condSpiking spikingTick
        (fun s => 2 * s.sim_time) (fun s => rfl)
        (fun s s' h =>
          have x := spikingTick_ok h
          ⟨x.1, x.2.1, x.2.2.2.1, by show 2 * s'.sim_time = 2 * s.sim_time; rw [x.2.2.1]⟩)
        (show 0 < (setChargeBias s1).time_step by
          show 0 < s1.time_step
          rw [hts1, hts0]
          exact hts)
        (trips_lt_loopFuel _ _ _) hsl2
      obtain ⟨hk3, ht3, hts3, hsim3⟩ := hcount2
      dsimp only at hk3 ht3 hsim3
      have hfin : (finalize s3).ticks = s3.ticks := rfl
      have hs2t : (setChargeBias s1).current_time = s1.current_time := rfl
      have hs2s : (setChargeBias s1).sim_time = s1.sim_time := rfl
      have hs2ts : (setChargeBias s1).time_step = s1.time_step := rfl
      have hs2k : (setChargeBias s1).ticks = s1.ticks := rfl
      have hsim1' : s1.sim_time = st := by
        rw [hsim1, hst0]
      have hts1' : s1.time_step = ts := by
        rw [hts1, hts0]
      have ht1' : s1.current_time = (trips 0 st ts : ℚ) * ts := by
        rw [ht1, hct, hst0, hts0, zero_add]
      have hgt1' : st < s1.current_time := by
        rw [← hsim1']
        exact hgt1
      have hk0 : s0.ticks = 0 := rfl
      have hT2 : trips (setChargeBias s1).current_time (2 * (setChargeBias s1).sim_time)
          (setChargeBias s1).time_step = trips s1.current_time (2 * st) ts := by
        rw [hs2t, hs2s, hs2ts, hsim1', hts1']
      have hT1 : trips s0.current_time s0.sim_time s0.time_step = trips 0 st ts := by
        rw [hct, hst0, hts0]
      have htot := trips_total hts hst ht1' hgt1'
      rw [hfin, hk3, hT2, hs2k, hk1, hT1, hk0]
      omega

/-- C4 witness: the completed run with `sim_time = 2`, `time_step = 3/4`
executes `⌊16/3⌋ + 1 = 6` iterations. -/
theorem c4_tick_count_witness :
    (0 : ℚ) < 3 / 4 ∧ (0 : ℚ) ≤ 2 ∧
      (simulate inpHalf scenSmooth).isOk = true ∧
      resultTicks (simulate inpHalf scenSmooth) = (⌊2 * (2 : ℚ) / (3 / 4)⌋ + 1).toNat :=
  ⟨by norm_num, by norm_num, by decide,
    c4_tick_count 2 (3 / 4) (1 / 10) wOne wZero 4 inpHalf (by norm_num) (by norm_num)
      (by decide)⟩

/-- A simulator whose clock is already past `sim_time` (as after a
completed run) crashes on invocation of `simulate`: the charging loop body
never runs, so the local `causal_neurons` is unbound when
`np.zeros_like(causal_neurons)` is evaluated. -/
lemma simulate_stale {n : ℕ} (inputs : Fin n → ℚ) (s : SimState n)
    (h : s.sim_time < s.current_time) :
    isUnboundCrash (simulate inputs s) = true := by
  have hcond : condSilent s = false := by
    unfold condSilent
    exact decide_eq_false (not_le.mpr h)
  have hloop : ∀ m, loopW condSilent (silentTick inputs) (m + 1) s = .ok s := by
    intro m
    unfold loopW
    rw [hcond]
    simp
  have hfe : loopFuel s.current_time s.sim_time s.time_step
      = ((⌊(s.sim_time - s.current_time) / s.time_step⌋).toNat + 1) + 1 := rfl
  have hnot : ¬ (s.current_time ≤ s.sim_time) := not_le.mpr h
  have hsl : simulateLoops inputs s = .error ⟨.unboundLocal, setChargeBias s⟩ := by
    unfold simulateLoops
    rw [hfe, hloop]
    dsimp only
    rw [if_neg hnot]
  unfold simulate
  rw [hsl]
  rfl

/-- C9 amended: re-invoking the simulation on the same simulator object
after a completed run does not reproduce the first output: the mutated
clock sits beyond `2*sim_time`, both stage loops are skipped, and the
second call dies with `UnboundLocalError` on `np.zeros_like` — identical
output requires a freshly constructed simulator. -/
theorem c9_no_rerun {n : ℕ} (inputs : Fin n → ℚ) (s : SimState n)
    (hst : 0 ≤ s.sim_time) (hok : (simulate inputs s).isOk = true) :
    isUnboundCrash (simulate inputs (stateOf (simulate inputs s))) = true := by
  cases hsl : simulateLoops inputs s with
  | error e =>
    unfold simulate at hok
    rw [hsl] at hok
    exact Bool.noConfusion hok
  | ok s3 =>
    have hsim : simulate inputs s = .ok (finalize s3) := by
      unfold simulate
      rw [hsl]
    rw [hsim]
    show isUnboundCrash (simulate inputs (finalize s3)) = true
    apply simulate_stale
    unfold simulateLoops at hsl
    cases hs1 : loopW condSilent (silentTick inputs)
        (loopFuel s.current_time s.sim_time s.time_step) s with
    | error e => rw [hs1] at hsl; exact Except.noConfusion hsl
    | ok s1 =>
      rw [hs1] at hsl
      by_cases hbr : s.current_time ≤ s.sim_time
      · have hsl2 : (if s.current_time ≤ s.sim_time then
              loopW condSpiking spikingTick
                (loopFuel (setChargeBias s1).current_time (2 * (setChargeBias s1).sim_time)
                  (setChargeBias s1).time_step) (setChargeBias s1)
            else .error ⟨.unboundLocal, setChargeBias s1⟩) = .ok s3 := hsl
        rw [if_pos hbr] at hsl2
        have hex := loopW_exit hsl2
        unfold condSpiking at hex
        have h2 : 2 * s3.sim_time < s3.current_time := not_le.mp (of_decide_eq_false hex)
        have hp1 : s1.sim_time = s.sim_time :=
          loopW_inv (P := fun x => x.sim_time = s.sim_time)
            (fun a b hPa _ hab => by
              show b.sim_time = s.sim_time
              rw [(silentTick_ok hab).2.2.1]
              exact hPa) rfl hs1
        have hp2 : s3.sim_time = s.sim_time :=
          loopW_inv (P := fun x => x.sim_time = s.sim_time)
            (fun a b hPa _ hab => by
              show b.sim_time = s.sim_time
              rw [(spikingTick_ok hab).2.2.1]
              exact hPa)
            (show (setChargeBias s1).sim_time = s.sim_time from hp1) hsl2
        show (finalize s3).sim_time < (finalize s3).current_time
        have e1 : (finalize s3).sim_time = s3.sim_time := rfl
        have e2 : (finalize s3).current_time = s3.current_time := rfl
        rw [e1, e2]
        have h3 : 0 ≤ s3.sim_time := by rw [hp2]; exact hst
        linarith
      · have hsl2 : (if s.current_time ≤ s.sim_time then
              loopW condSpiking spikingTick
                (loopFuel (setChargeBias s1).current_time (2 * (setChargeBias s1).sim_time)
                  (setChargeBias s1).time_step) (setChargeBias s1)
            else .error ⟨.unboundLocal, setChargeBias s1⟩) = .ok s3 := hsl
        rw [if_neg hbr] at hsl2
        exact Except.noConfusion hsl2

/-- C9 witness: the completed `sim_time = 2`, `time_step = 3/4` run,
re-invoked on its own final state, crashes with `UnboundLocalError`. -/
theorem c9_no_rerun_witness :
    (0 : ℚ) ≤ scenSmooth.sim_time ∧ (simulate inpHalf scenSmooth).isOk = true ∧
      isUnboundCrash (simulate inpHalf (stateOf (simulate inpHalf scenSmooth))) = true :=
  ⟨by decide, by decide, c9_no_rerun inpHalf scenSmooth (by decide) (by decide)⟩

/-- C7 amended: a negative threshold is accepted (nothing rejects it) and,
provided no input spike time is negative — so the causal mask is all-false
at `current_time = 0` and every membrane stays exactly 0 — every (neuron,
channel) fires on the first charging tick, because `0 > v_threshold`
strictly; with `v_threshold = 0` the strict comparison fails instead. -/
theorem c7_negative_threshold (n : ℕ) (st ts th : ℚ) (w1 w2 : Fin n → Fin n → ℚ)
    (vsize : ℕ) (inputs : Fin n → ℚ) (i : Fin n) (c : Fin 2)
    (hth : th < 0) (hinp : ∀ j, 0 ≤ inputs j) :
    (stateOf (silentTick inputs (mkFresh n st ts th w1 w2 vsize))).l1.spikes i c
      = true := by
  have hmask : causalMask inputs (mkFresh n st ts th w1 w2 vsize).current_time
      = fun _ => false := by
    funext j
    exact decide_eq_false (not_lt.mpr (hinp j))
  have hl1 : (stateOf (silentTick inputs (mkFresh n st ts th w1 w2 vsize))).l1
      = (mkFresh n st ts th w1 w2 vsize).l1.update_state
          (causalMask inputs (mkFresh n st ts th w1 w2 vsize).current_time) := by
    unfold silentTick
    split <;> rfl
  rw [hl1, hmask]
  simp [Layer.update_state, Layer.generate_spikes, Layer.update_membrane_potential,
    Layer.update_input_currents, mkFresh]
  exact hth

/-- C7 witness: threshold -1 with the nonnegative input spike times [0.5]
fires both channels of the single neuron on the first tick. -/
theorem c7_negative_threshold_witness :
    (-1 : ℚ) < 0 ∧ (∀ j : Fin 1, 0 ≤ inpHalf j) ∧
      (stateOf (silentTick inpHalf (mkFresh 1 2 (3 / 4) (-1) wOne wZero 4))).l1.spikes 0 0
        = true :=
  ⟨by norm_num, fun j => by norm_num [inpHalf],
    c7_negative_threshold 1 2 (3 / 4) (-1) wOne wZero 4 inpHalf 0 0 (by norm_num)
      (fun j => by norm_num [inpHalf])⟩

/-- Pointwise description of one `update_state`: the spike flag compares
the updated membrane with the threshold, `refactory` grows by the spike
indicator, and the threshold itself is unchanged. -/
lemma update_state_point {n : ℕ} (L : Layer n) (mask : Fin n → Bool) (i : Fin n)
    (c : Fin 2) :
    (L.update_state mask).spikes i c
        = decide (L.v_threshold <
            (L.v_membrane i c + L.update_input_currents mask i c)
              * (1 - L.refactory i c)) ∧
      (L.update_state mask).refactory i c
        = L.refactory i c + (if (L.update_state mask).spikes i c then 1 else 0) ∧
      (L.update_state mask).v_threshold = L.v_threshold :=
  ⟨rfl, rfl, rfl⟩

/-- A refractory-locked channel (`refactory = 1`) under a nonnegative
threshold: its membrane is forced to 0, it does not spike, and its
`refactory` stays exactly 1. -/
lemma refractory_locked {n : ℕ} (L : Layer n) (mask : Fin n → Bool) (i : Fin n)
    (c : Fin 2) (hth : 0 ≤ L.v_threshold) (hr : L.refactory i c = 1) :
    (L.update_state mask).spikes i c = false ∧
      (L.update_state mask).refactory i c = 1 := by
  obtain ⟨h1, h2, _⟩ := update_state_point L mask i c
  have hs : (L.update_state mask).spikes i c = false := by
    rw [h1, hr]
    simp only [sub_self, mul_zero, decide_eq_false_iff_not, not_lt]
    exact hth
  refine ⟨hs, ?_⟩
  rw [h2, hs, hr]
  simp

/-- `refactory` never decreases across one update (any threshold). -/
lemma refractory_mono {n : ℕ} (L : Layer n) (mask : Fin n → Bool) (i : Fin n)
    (c : Fin 2) :
    L.refactory i c ≤ (L.update_state mask).refactory i c := by
  obtain ⟨_, h2, _⟩ := update_state_point L mask i c
  rw [h2]
  split <;> linarith

/-- Every `refactory` entry of the state is 0 or 1; true of fresh states
and preserved by every update while the threshold is nonnegative. -/
abbrev RefOk {n : ℕ} (s : SimState n) : Prop :=
  ∀ (i : Fin n) (c : Fin 2), s.l1.refactory i c = 0 ∨ s.l1.refactory i c = 1

/-- Pointwise `RefOk` preservation under one update, for a nonnegative
threshold. -/
lemma refOk_update {n : ℕ} (L : Layer n) (mask : Fin n → Bool) (i : Fin n)
    (c : Fin 2) (hth : 0 ≤ L.v_threshold)
    (hr : L.refactory i c = 0 ∨ L.refactory i c = 1) :
    (L.update_state mask).refactory i c = 0 ∨
      (L.update_state mask).refactory i c = 1 := by
  obtain ⟨h1, h2, _⟩ := update_state_point L mask i c
  cases hr with
  | inl h0 =>
    rw [h2, h0]
    split
    · right
      simp
    · left
      simp
  | inr hone => exact Or.inr (refractory_locked L mask i c hth hone).2

/-- One state transition of a `SNNNumpy.simulate` run: a charging tick
(with arbitrary input spike times), a spiking tick, the bias reassignment
between the stages, or the finalization; every state a run passes through
is reachable from the fresh state along these steps. -/
inductive TickStep {n : ℕ} : SimState n → SimState n → Prop where
  | silent (inputs : Fin n → ℚ) {s s' : SimState n} :
      silentTick inputs s = .ok s' → TickStep s s'
  | spiking {s s' : SimState n} : spikingTick s = .ok s' → TickStep s s'
  | chargeBias (s : SimState n) : TickStep s (setChargeBias s)
  | finalStep (s : SimState n) : TickStep s (finalize s)

/-- Per-step facts: monotone `refactory`, unchanged threshold, and (for a
nonnegative threshold) preservation of `RefOk` and of the locked state. -/
lemma tickStep_props {n : ℕ} {s a : SimState n} (hstep : TickStep s a) :
    (∀ i c, s.l1.refactory i c ≤ a.l1.refactory i c) ∧
      a.l1.v_threshold = s.l1.v_threshold ∧
      (0 ≤ s.l1.v_threshold → RefOk s → RefOk a ∧
        ∀ i c, s.l1.refactory i c = 1 → a.l1.refactory i c = 1) := by
  cases hstep with
  | silent inputs h =>
    have hl := (silentTick_ok h).2.2.2.2.2.2
    exact ⟨fun i c => by rw [hl]; exact refractory_mono _ _ i c, by rw [hl]; rfl,
      fun hth hro => ⟨fun i c => by rw [hl]; exact refOk_update _ _ i c hth (hro i c),
        fun i c h1 => by rw [hl]; exact (refractory_locked _ _ i c hth h1).2⟩⟩
  | spiking h =>
    have hl := (spikingTick_ok h).2.2.2.2.2.2
    exact ⟨fun i c => by rw [hl]; exact refractory_mono _ _ i c, by rw [hl]; rfl,
      fun hth hro => ⟨fun i c => by rw [hl]; exact refOk_update _ _ i c hth (hro i c),
        fun i c h1 => by rw [hl]; exact (refractory_locked _ _ i c hth h1).2⟩⟩
  | chargeBias s =>
    exact ⟨fun i c => le_refl _, rfl, fun _ hro => ⟨hro, fun i c h1 => h1⟩⟩
  | finalStep s =>
    exact ⟨fun i c => le_refl _, rfl, fun _ hro => ⟨hro, fun i c h1 => h1⟩⟩

/-- C5 amended: along every chain of simulation steps `refactory` never
decreases and the threshold is unchanged; when the threshold is
nonnegative (every run the constructor builds has threshold 0.1), a
channel with `refactory = 1` keeps it at 1 for the rest of the run and no
later charging or spiking tick makes it spike again; with a negative
threshold a refractory channel does fire again (`c5_counterexample`). -/
theorem c5_refractory {n : ℕ} (s s' : SimState n)
    (h : Relation.ReflTransGen TickStep s s') :
    (∀ i c, s.l1.refactory i c ≤ s'.l1.refactory i c) ∧
      s'.l1.v_threshold = s.l1.v_threshold ∧
      (0 ≤ s.l1.v_threshold → RefOk s →
        RefOk s' ∧
        (∀ i c, s.l1.refactory i c = 1 → s'.l1.refactory i c = 1) ∧
        (∀ (inputs : Fin n → ℚ) (s'' : SimState n) (i : Fin n) (c : Fin 2),
          s.l1.refactory i c = 1 →
          silentTick inputs s' = .ok s'' ∨ spikingTick s' = .ok s'' →
          s''.l1.spikes i c = false)) := by
  induction h with
  | refl =>
    refine ⟨fun i c => le_refl _, rfl, fun hth hro => ⟨hro, fun i c h1 => h1, ?_⟩⟩
    intro inputs s'' i c h1 htick
    cases htick with
    | inl hsil =>
      rw [(silentTick_ok hsil).2.2.2.2.2.2]
      exact (refractory_locked _ _ i c hth h1).1
    | inr hsp =>
      rw [(spikingTick_ok hsp).2.2.2.2.2.2]
      exact (refractory_locked _ _ i c hth h1).1
  | @tail b a hab hba ih =>
    obtain ⟨ihmono, ihth, ihcond⟩ := ih
    obtain ⟨smono, sth, scond⟩ := tickStep_props hba
    refine ⟨fun i c => le_trans (ihmono i c) (smono i c), by rw [sth, ihth], ?_⟩
    intro hth hro
    obtain ⟨hroB, hkeepB, _⟩ := ihcond hth hro
    have hthB : 0 ≤ b.l1.v_threshold := by
      rw [ihth]
      exact hth
    obtain ⟨hroA, hkeepA⟩ := scond hthB hroB
    refine ⟨hroA, fun i c h1 => hkeepA i c (hkeepB i c h1), ?_⟩
    intro inputs s'' i c h1 htick
    have h1' : a.l1.refactory i c = 1 := hkeepA i c (hkeepB i c h1)
    have hthA : 0 ≤ a.l1.v_threshold := by
      rw [sth, ihth]
      exact hth
    cases htick with
    | inl hsil =>
      rw [(silentTick_ok hsil).2.2.2.2.2.2]
      exact (refractory_locked _ _ i c hthA h1').1
    | inr hsp =>
      rw [(spikingTick_ok hsp).2.2.2.2.2.2]
      exact (refractory_locked _ _ i c hthA h1').1

/-- State after one charging tick of the `sim_time = 2`, `time_step = 3/4`
run (no spike yet). -/
def sAfter1 : SimState 1 := stateOf (silentTick inpHalf scenSmooth)

/-- State after two charging ticks: the real channel has fired at
`current_time = 3/4` and is refractory. -/
def sAfter2 : SimState 1 := stateOf (silentTick inpHalf sAfter1)

/-- State after three charging ticks. -/
def sAfter3 : SimState 1 := stateOf (silentTick inpHalf sAfter2)

/-- C5 witness: from the reached state with `refactory = 1` on the real
channel, the next charging tick produces no spike there. -/
theorem c5_refractory_witness :
    sAfter2.l1.refactory 0 0 = 1 ∧ (0 : ℚ) ≤ sAfter2.l1.v_threshold ∧
      sAfter3.l1.spikes 0 0 = false := by
  refine ⟨by decide, by decide, ?_⟩
  have hok : silentTick inpHalf sAfter2 = .ok sAfter3 := rfl
  exact ((c5_refractory sAfter2 sAfter2 Relation.ReflTransGen.refl).2.2
    (by decide) (by decide)).2.2 inpHalf sAfter3 0 0 (by decide) (Or.inl hok)

/-- Accumulator update of a successful charging tick, pointwise:
`self.spikes += out_l1 * current_time`. -/
lemma silentTick_ok_spikes {n : ℕ} {inputs : Fin n → ℚ} {s s' : SimState n}
    (h : silentTick inputs s = .ok s') (i : Fin n) (c : Fin 2) :
    s'.spikes i c = s.spikes i c +
      (if (s.l1.update_state (causalMask inputs s.current_time)).spikes i c
        then s.current_time else 0) := by
  unfold silentTick at h
  split at h
  · injection h with h
    subst h
    rfl
  · exact Except.noConfusion h

/-- Accumulator update of a successful spiking tick, pointwise:
`self.spikes += out_l1 * relative_time`. -/
lemma spikingTick_ok_spikes {n : ℕ} {s s' : SimState n}
    (h : spikingTick s = .ok s') (i : Fin n) (c : Fin 2) :
    s'.spikes i c = s.spikes i c +
      (if (s.l1.update_state (fun _ => false)).spikes i c
        then s.current_time - s.sim_time else 0) := by
  unfold spikingTick at h
  split at h
  · injection h with h
    subst h
    rfl
  · exact Except.noConfusion h

/-- Invariant of the charging loop: pinned configuration scalars, a
nonnegative clock, `RefOk`, and accumulator entries in `[0, sim_time]`
that are still zero wherever the channel has not turned refractory. -/
def SilentInv {n : ℕ} (st ts th : ℚ) (s : SimState n) : Prop :=
  s.sim_time = st ∧ s.time_step = ts ∧ s.l1.v_threshold = th ∧
    0 ≤ s.current_time ∧ RefOk s ∧
    ∀ (i : Fin n) (c : Fin 2), 0 ≤ s.spikes i c ∧ s.spikes i c ≤ st ∧
      (s.l1.refactory i c = 0 → s.spikes i c = 0)

/-- Invariant of the spiking loop: as `SilentInv`, with the clock now
strictly past `sim_time`. -/
def SpikingInv {n : ℕ} (st ts th : ℚ) (s : SimState n) : Prop :=
  s.sim_time = st ∧ s.time_step = ts ∧ s.l1.v_threshold = th ∧
    st < s.current_time ∧ RefOk s ∧
    ∀ (i : Fin n) (c : Fin 2), 0 ≤ s.spikes i c ∧ s.spikes i c ≤ st ∧
      (s.l1.refactory i c = 0 → s.spikes i c = 0)

/-- One charging tick preserves `SilentInv` (threshold nonnegative,
positive step, guard `current_time ≤ sim_time` holding on entry). -/
lemma silentTick_inv {n : ℕ} {inputs : Fin n → ℚ} {st ts th : ℚ}
    {s s' : SimState n} (hts : 0 < ts) (hth : 0 ≤ th)
    (hI : SilentInv st ts th s) (hc : condSilent s = true)
    (h : silentTick inputs s = .ok s') : SilentInv st ts th s' := by
  obtain ⟨hst, htsf, hthf, ht0, hro, hacc⟩ := hI
  obtain ⟨hct, _, hsim, htstep, _, _, hl⟩ := silentTick_ok h
  have hcnd : s.current_time ≤ st := by
    rw [← hst]
    exact of_decide_eq_true hc
  have hthL : 0 ≤ s.l1.v_threshold := by
    rw [hthf]
    exact hth
  have hst0 : 0 ≤ st := le_trans ht0 hcnd
  refine ⟨by rw [hsim, hst], by rw [htstep, htsf],
    by rw [hl]; exact hthf,
    by rw [hct, htsf]; linarith,
    fun i c => by rw [hl]; exact refOk_update _ _ i c hthL (hro i c), ?_⟩
  intro i c
  obtain ⟨ha0, ha1, haz⟩ := hacc i c
  have hs' := silentTick_ok_spikes h i c
  by_cases hrc : s.l1.refactory i c = 0
  · have haz0 : s.spikes i c = 0 := haz hrc
    by_cases hspike : (s.l1.update_state (causalMask inputs s.current_time)).spikes i c
        = true
    · rw [hs', haz0, if_pos hspike, zero_add]
      refine ⟨ht0, hcnd, ?_⟩
      intro hr0
      rw [hl, (update_state_point s.l1 (causalMask inputs s.current_time) i c).2.1,
        hrc, if_pos hspike] at hr0
      norm_num at hr0
    · rw [hs', haz0, if_neg hspike, zero_add]
      exact ⟨le_refl 0, hst0, fun _ => rfl⟩
  · have hr1 : s.l1.refactory i c = 1 := (hro i c).resolve_left hrc
    have hlock := refractory_locked s.l1 (causalMask inputs s.current_time) i c hthL hr1
    rw [hs']
    simp only [hlock.1, Bool.false_eq_true, if_false, add_zero]
    refine ⟨ha0, ha1, ?_⟩
    intro hr0
    rw [hl, hlock.2] at hr0
    exact absurd hr0 one_ne_zero

/-- One spiking tick preserves `SpikingInv`: its contribution
`relative_time = current_time - sim_time` lies in `(0, sim_time]` while
the guard `current_time ≤ 2*sim_time` holds. -/
lemma spikingTick_inv {n : ℕ} {st ts th : ℚ} {s s' : SimState n}
    (hts : 0 < ts) (hth : 0 ≤ th)
    (hI : SpikingInv st ts th s) (hc : condSpiking s = true)
    (h : spikingTick s = .ok s') : SpikingInv st ts th s' := by
  obtain ⟨hst, htsf, hthf, htgt, hro, hacc⟩ := hI
  obtain ⟨hct, _, hsim, htstep, _, _, hl⟩ := spikingTick_ok h
  have hcnd : s.current_time ≤ 2 * st := by
    have := of_decide_eq_true hc
    rw [hst] at this
    exact this
  have hthL : 0 ≤ s.l1.v_threshold := by
    rw [hthf]
    exact hth
  refine ⟨by rw [hsim, hst], by rw [htstep, htsf],
    by rw [hl]; exact hthf,
    by rw [hct, htsf]; linarith,
    fun i c => by rw [hl]; exact refOk_update _ _ i c hthL (hro i c), ?_⟩
  intro i c
  obtain ⟨ha0, ha1, haz⟩ := hacc i c
  have hs' := spikingTick_ok_spikes h i c
  have hrel0 : 0 ≤ s.current_time - s.sim_time := by
    rw [hst]
    linarith
  have hrel1 : s.current_time - s.sim_time ≤ st := by
    rw [hst]
    linarith
  by_cases hrc : s.l1.refactory i c = 0
  · have haz0 : s.spikes i c = 0 := haz hrc
    by_cases hspike : (s.l1.update_state (fun _ => false)).spikes i c = true
    · rw [hs', haz0, if_pos hspike, zero_add]
      refine ⟨hrel0, hrel1, ?_⟩
      intro hr0
      rw [hl, (update_state_point s.l1 (fun _ => false) i c).2.1,
        hrc, if_pos hspike] at hr0
      norm_num at hr0
    · rw [hs', haz0, if_neg hspike, zero_add]
      refine ⟨le_refl 0, ?_, fun _ => rfl⟩
      linarith
  · have hr1 : s.l1.refactory i c = 1 := (hro i c).resolve_left hrc
    have hlock := refractory_locked s.l1 (fun _ => false) i c hthL hr1
    rw [hs']
    simp only [hlock.1, Bool.false_eq_true, if_false, add_zero]
    refine ⟨ha0, ha1, ?_⟩
    intro hr0
    rw [hl, hlock.2] at hr0
    exact absurd hr0 one_ne_zero

/-- The sentinel/decode bounds, given accumulator entries in
`[0, sim_time]`: after the sentinel substitution every entry lies in
`[0, 2*sim_time]`, and every decoded value lies in
`[-sim_time, sim_time]`. -/
lemma bounds_from_inv {n : ℕ} {st : ℚ} (hst : 0 ≤ st) (s3 : SimState n)
    (hsim : s3.sim_time = st)
    (hacc : ∀ (i : Fin n) (c : Fin 2), 0 ≤ s3.spikes i c ∧ s3.spikes i c ≤ st) :
    ∀ (i : Fin n) (c : Fin 2),
      (0 ≤ (applySentinel s3).spikes i c ∧ (applySentinel s3).spikes i c ≤ 2 * st) ∧
        (-st ≤ (finalize s3).spikes i c ∧ (finalize s3).spikes i c ≤ st) := by
  intro i c
  have hA : (applySentinel s3).spikes i c
      = if s3.spikes i c = 0 then 3 / 2 * s3.sim_time else s3.spikes i c := rfl
  have hD : (finalize s3).spikes i c
      = s3.sim_time - (applySentinel s3).spikes i c - 1 / 2 * s3.sim_time := rfl
  obtain ⟨h0, h1⟩ := hacc i c
  rw [hD, hA, hsim]
  by_cases hz : s3.spikes i c = 0
  · rw [if_pos hz]
    refine ⟨⟨by linarith, by linarith⟩, by constructor <;> linarith⟩
  · rw [if_neg hz]
    exact ⟨⟨h0, by linarith⟩, ⟨by linarith, by linarith⟩⟩

/-- C6: for every completed pair of stage loops from a fresh state with
positive `time_step`, nonnegative `sim_time` and nonnegative threshold
(every constructed run has threshold 0.1 > 0), every accumulator entry
immediately before decode — i.e. after the sentinel substitution — lies in
`[0, 2*sim_time]`, and every decoded output value lies in
`[-sim_time, sim_time]`. -/
theorem c6_output_bounds {n : ℕ} (st ts th : ℚ) (w1 w2 : Fin n → Fin n → ℚ)
    (vsize : ℕ) (inputs : Fin n → ℚ) (hts : 0 < ts) (hst : 0 ≤ st) (hth : 0 ≤ th)
    (hok : (simulateLoops inputs (mkFresh n st ts th w1 w2 vsize)).isOk = true) :
    ∀ (i : Fin n) (c : Fin 2),
      (0 ≤ (applySentinel
          (stateOf (simulateLoops inputs (mkFresh n st ts th w1 w2 vsize)))).spikes i c ∧
        (applySentinel
          (stateOf (simulateLoops inputs (mkFresh n st ts th w1 w2 vsize)))).spikes i c
          ≤ 2 * st) ∧
      (-st ≤ (stateOf (simulate inputs (mkFresh n st ts th w1 w2 vsize))).spikes i c ∧
        (stateOf (simulate inputs (mkFresh n st ts th w1 w2 vsize))).spikes i c ≤ st) := by
  cases hsl : simulateLoops inputs (mkFresh n st ts th w1 w2 vsize) with
  | error e =>
    rw [hsl] at hok
    exact Bool.noConfusion hok
  | ok s3 =>
    have hsim : simulate inputs (mkFresh n st ts th w1 w2 vsize) = .ok (finalize s3) := by
      unfold simulate
      rw [hsl]
    rw [hsim]
    simp only [stateOf]
    -- establish the spiking invariant at s3
    unfold simulateLoops at hsl
    cases hs1 : loopW condSilent (silentTick inputs)
        (loopFuel (mkFresh n st ts th w1 w2 vsize).current_time
          (mkFresh n st ts th w1 w2 vsize).sim_time
          (mkFresh n st ts th w1 w2 vsize).time_step) (mkFresh n st ts th w1 w2 vsize) with
    | error e => rw [hs1] at hsl; exact Except.noConfusion hsl
    | ok s1 =>
      rw [hs1] at hsl
      have hInit : SilentInv st ts th (mkFresh n st ts th w1 w2 vsize) :=
        ⟨rfl, rfl, rfl, le_refl 0, fun i c => Or.inl rfl,
          fun i c => ⟨le_refl 0, hst, fun _ => rfl⟩⟩
      have hIs1 : SilentInv st ts th s1 :=
        loopW_inv (P := SilentInv st ts th)
          (fun a b hPa hca hab => silentTick_inv hts hth hPa hca hab) hInit hs1
      have hbranch : (mkFresh n st ts th w1 w2 vsize).current_time
          ≤ (mkFresh n st ts th w1 w2 vsize).sim_time := by
        show (0 : ℚ) ≤ st
        exact hst
      have hsl2 : (if (mkFresh n st ts th w1 w2 vsize).current_time
            ≤ (mkFresh n st ts th w1 w2 vsize).sim_time then
            loopW condSpiking spikingTick
              (loopFuel (setChargeBias s1).current_time (2 * (setChargeBias s1).sim_time)
                (setChargeBias s1).time_step) (setChargeBias s1)
          else .error ⟨.unboundLocal, setChargeBias s1⟩) = .ok s3 := hsl
      rw [if_pos hbranch] at hsl2
      have hgt1 : st < s1.current_time := by
        have hx := loopW_exit hs1
        unfold condSilent at hx
        have := not_le.mp (of_decide_eq_false hx)
        rw [hIs1.1] at this
        exact this
      have hSp2 : SpikingInv st ts th (setChargeBias s1) := by
        obtain ⟨a1, a2, a3, _, a5, a6⟩ := hIs1
        exact ⟨a1, a2, a3, hgt1, a5, a6⟩
      have hIs3 : SpikingInv st ts th s3 :=
        loopW_inv (P := SpikingInv st ts th)
          (fun a b hPa hca hab => spikingTick_inv hts hth hPa hca hab) hSp2 hsl2
      exact bounds_from_inv hst s3 hIs3.1 (fun i c => ⟨(hIs3.2.2.2.2.2 i c).1,
        (hIs3.2.2.2.2.2 i c).2.1⟩)

set_option maxHeartbeats 8000000 in
/-- C6 witness: the bounds at the completed `sim_time = 2`,
`time_step = 3/4` run, real channel. -/
theorem c6_output_bounds_witness :
    ((0 : ℚ) < 3 / 4 ∧ (0 : ℚ) ≤ 2 ∧ (0 : ℚ) ≤ 1 / 10 ∧
      (simulateLoops inpHalf (mkFresh 1 2 (3 / 4) (1 / 10) wOne wZero 4)).isOk = true) ∧
    ((0 ≤ (applySentinel
        (stateOf (simulateLoops inpHalf (mkFresh 1 2 (3 / 4) (1 / 10) wOne wZero 4)))).spikes
          0 0 ∧
      (applySentinel
        (stateOf (simulateLoops inpHalf (mkFresh 1 2 (3 / 4) (1 / 10) wOne wZero 4)))).spikes
          0 0 ≤ 2 * 2) ∧
      (-2 ≤ (stateOf (simulate inpHalf (mkFresh 1 2 (3 / 4) (1 / 10) wOne wZero 4))).spikes
          0 0 ∧
        (stateOf (simulate inpHalf (mkFresh 1 2 (3 / 4) (1 / 10) wOne wZero 4))).spikes
          0 0 ≤ 2)) :=
  ⟨⟨by norm_num, by norm_num, by norm_num, by decide⟩,
    c6_output_bounds 2 (3 / 4) (1 / 10) wOne wZero 4 inpHalf (by norm_num) (by norm_num)
      (by norm_num) (by decide) 0 0⟩
